import Mathlib

/-!
Verification of the NEAT core: `Node` (src/node.py) and `ConnectionHistory`
(src/connection_history.py), shallowly embedded in Lean 4.

Modelling conventions:
* Python floats are modelled as rationals (`Rat`); Python ints as `Int`.
* Nodes form a cyclic object graph in Python (nodes hold connection genes,
  connection genes hold nodes).  Following the arena representation, a heap of
  nodes is a `List Node` and an object reference is an index (`Nat`) into it;
  Python object identity (`==` on plain objects) is index equality.
* The `activation_functions` module and `connection_gene.py` are not part of
  the sources; they are modelled from the spec (see the doc comments below).
* Randomness (`random()`, `numpy.random.uniform`, `numpy.random.normal`,
  `random.choice`) is modelled by passing the drawn values explicitly in a
  `MutateRand` record.
-/

/-- Modelled from the spec: the external `activation_functions` module, a set of
named, stateless, pure numeric functions {step, sigmoid, tanh, relu,
leaky_relu, prelu, elu, softmax, linear, swish}.  Each function object of the
module is represented by a tag; theorems that need numeric behaviour take an
interpretation `ActivationFn → Rat → Rat` as a parameter. -/
inductive ActivationFn
  | step
  | sigmoid
  | tanh
  | relu
  | leaky_relu
  | prelu
  | elu
  | softmax
  | linear
  | swish
deriving DecidableEq, Repr

/-- A Python value stored in the `activation_function` attribute of a node: the
constructor takes a string (type alias `ActivationFunctions`), but
`Node.mutate` assigns the callable returned by `get_activation_function`, so at
runtime the attribute holds either a string or a function object. -/
inductive PyActivation
  | name (s : String)
  | func (f : ActivationFn)
deriving DecidableEq, Repr

/-- Modelled from the spec: `connection_gene.py` is not among the sources.
"Connection Gene — attributes: reference to its from-node and to-node, a
real-valued weight, an enabled flag, and an innovation number."  Node
references are heap indices. -/
structure ConnectionGene where
  from_node : Nat
  to_node : Nat
  weight : Rat
  enabled : Bool
  innovation_nb : Int
deriving DecidableEq, Repr

/-- `Node` from src/node.py: id, input_sum, output_value, output_connections,
layer, activation_function. -/
structure Node where
  id : Int
  input_sum : Rat
  output_value : Rat
  output_connections : List ConnectionGene
  layer : Int
  activation_function : PyActivation
deriving DecidableEq, Repr

/-- `Node.__init__`: input_sum and output_value start at 0 and the
output_connections list starts empty. -/
def Node.init (id : Int) (activation_function : PyActivation) (layer : Int := 0) : Node :=
  { id := id
    input_sum := 0
    output_value := 0
    output_connections := []
    layer := layer
    activation_function := activation_function }

/-- Read a node from the heap (a Python attribute access through a reference;
only reachable, i.e. in-bounds, references occur in the program). -/
def getNode (store : List Node) (r : Nat) : Node :=
  store.getD r (Node.init 0 (.name "sigmoid") 0)

/-- Write back a node attribute update through a reference. -/
def setNode (store : List Node) (r : Nat) (n : Node) : List Node :=
  store.set r n

/-- `Node.get_activation_function`: the `elif` chain of string comparisons from
src/node.py, in source order, falling through to sigmoid.  A function-object
argument compares unequal to every string, so it also falls through. -/
def Node.get_activation_function (activation_function : PyActivation) : ActivationFn :=
  if activation_function = .name "elu" then .elu
  else if activation_function = .name "leaky_relu" then .leaky_relu
  else if activation_function = .name "linear" then .linear
  else if activation_function = .name "prelu" then .prelu
  else if activation_function = .name "relu" then .relu
  else if activation_function = .name "sigmoid" then .sigmoid
  else if activation_function = .name "softmax" then .softmax
  else if activation_function = .name "step" then .step
  else if activation_function = .name "swish" then .swish
  else if activation_function = .name "tanh" then .tanh
  else .sigmoid

/-- One iteration of the loop in `Node.engage`: for an enabled connection `c`,
`c.to_node.input_sum += c.weight * self.output_value`. -/
def engageStep (ref : Nat) (st : List Node) (c : ConnectionGene) : List Node :=
  if c.enabled then
    let tgt := getNode st c.to_node
    setNode st c.to_node
      { tgt with input_sum := tgt.input_sum + c.weight * (getNode st ref).output_value }
  else st

/-- `Node.engage` (src/node.py): if `layer ≠ 0`, set
`output_value := activation(input_sum)` where the activation is resolved by
`get_activation_function`; then run the connection loop.  `I` interprets the
activation-function tags numerically (the module is external to the sources). -/
def Node.engage (I : ActivationFn → Rat → Rat) (store : List Node) (ref : Nat) : List Node :=
  let n := getNode store ref
  let store1 :=
    if n.layer ≠ 0 then
      setNode store ref
        { n with output_value := I (Node.get_activation_function n.activation_function) n.input_sum }
    else store
  n.output_connections.foldl (engageStep ref) store1

/-- The configuration fields read by `Node.mutate`. -/
structure NeatConfig where
  bias_replace_rate : Rat
  bias_mutate_rate : Rat
  bias_min_value : Rat
  bias_max_value : Rat
  bias_init_mean : Rat
  bias_init_stdev : Rat
  activation_mutate_rate : Rat
deriving Repr

/-- The random draws consumed by one `Node.mutate` call: the three `random()`
comparisons, the `uniform(bias_min, bias_max)` draw, the
`normal(mean, stdev)` draw, and the index picked by `choice` from the list of
activation-function names. -/
structure MutateRand where
  r_bias_replace : Rat
  u_bias : Rat
  r_bias_mutate : Rat
  g_bias : Rat
  r_activation : Rat
  choice_idx : Nat
deriving Repr

/-- The list of names `Node.mutate` samples from. -/
def activations_functions : List String :=
  ["step", "sigmoid", "tanh", "relu", "leaky_relu", "prelu", "elu", "softmax", "linear", "swish"]

/-- `Node.mutate` (src/node.py).  For a bias node: replace `output_value` by the
uniform draw with probability `bias_replace_rate`; otherwise (elif) perturb it
by `normal(mean, stdev) / 50` and clamp, with probability `bias_mutate_rate`.
Independently, with probability `activation_mutate_rate`, pick a name with
`choice` and assign `self.activation_function = self.get_activation_function(name)`
— note the code stores the returned function object, not the name. -/
def Node.mutate (config : NeatConfig) (rnd : MutateRand) (is_bias_node : Bool) (n : Node) : Node :=
  let n1 :=
    if is_bias_node then
      if rnd.r_bias_replace < config.bias_replace_rate then
        { n with output_value := rnd.u_bias }
      else if rnd.r_bias_mutate < config.bias_mutate_rate then
        let v0 := n.output_value + rnd.g_bias / 50
        let v1 := if v0 > config.bias_max_value then config.bias_max_value else v0
        let v2 := if v1 < config.bias_min_value then config.bias_min_value else v1
        { n with output_value := v2 }
      else n
    else n
  if rnd.r_activation < config.activation_mutate_rate then
    let random_function := activations_functions.getD rnd.choice_idx "step"
    { n1 with activation_function := .func (Node.get_activation_function (.name random_function)) }
  else n1

/-- `Node.is_connected_to` (src/node.py): `selfRef` is `self`, `node` is the
argument; `c.to_node == self` is object identity, i.e. reference equality. -/
def Node.is_connected_to (store : List Node) (selfRef node : Nat) : Bool :=
  let s := getNode store selfRef
  let o := getNode store node
  if o.layer = s.layer then false
  else if o.layer < s.layer then
    o.output_connections.any (fun c => c.to_node = selfRef)
  else
    s.output_connections.any (fun c => c.to_node = node)

/-- `Node.clone` (src/node.py): `Node(self.id, self.activation_function, self.layer)`. -/
def Node.clone (n : Node) : Node :=
  Node.init n.id n.activation_function n.layer

/-- Modelled from the spec: `genome.py` is not among the sources.
`ConnectionHistory.matches` reads only `genome.genes`, the genome's list of
connection genes ("Genome — owns a set of Nodes and a set of Connection Genes
(called 'genes')"). -/
structure Genome where
  genes : List ConnectionGene
deriving Repr

/-- `ConnectionHistory` (src/connection_history.py).  `matches` reads only the
`id` attribute of the stored endpoint nodes, so the endpoints are stored as
node values. -/
structure ConnectionHistory where
  from_node : Node
  to_node : Node
  innovation_nb : Int
  innovation_nbs : List Int
deriving Repr

/-- `ConnectionHistory.matches` (src/connection_history.py): gene count must
equal the stored list's length, endpoint ids must match, and every gene's
innovation number must be contained in the stored list; otherwise false. -/
def ConnectionHistory.matches (h : ConnectionHistory) (genome : Genome)
    (from_node to_node : Node) : Bool :=
  if genome.genes.length = h.innovation_nbs.length then
    if from_node.id = h.from_node.id ∧ to_node.id = h.to_node.id then
      genome.genes.all (fun g => h.innovation_nbs.contains g.innovation_nb)
    else false
  else false

/-- C1: `ConnectionHistory.matches g f t` is true iff the gene count of `g`
equals the length of the stored innovation-number list, `f.id` and `t.id`
equal the stored endpoint ids, and every gene's innovation number is a member
of the stored list. -/
theorem matches_iff_length_ids_membership (h : ConnectionHistory) (g : Genome) (f t : Node) :
    h.matches g f t = true ↔
      (g.genes.length = h.innovation_nbs.length ∧ f.id = h.from_node.id ∧
        t.id = h.to_node.id ∧ ∀ gene ∈ g.genes, gene.innovation_nb ∈ h.innovation_nbs) := by
  constructor
  · intro hm
    unfold ConnectionHistory.matches at hm
    split_ifs at hm with hl hid
    · refine ⟨hl, hid.1, hid.2, ?_⟩
      intro gene hg
      have := List.all_eq_true.mp hm gene hg
      simpa using this
  · rintro ⟨h1, h2, h3, h4⟩
    unfold ConnectionHistory.matches
    rw [if_pos h1, if_pos ⟨h2, h3⟩, List.all_eq_true]
    intro gene hg
    simpa using h4 gene hg

/-- C2, counterexample: `matches` checks membership in one direction only, so
a genome whose two genes share innovation number 1 matches a stored list
`[1, 2]` although stored number 2 occurs in no gene. -/
theorem matches_without_reverse_membership :
    ConnectionHistory.matches
        ⟨Node.init 1 (.name "sigmoid") 1, Node.init 2 (.name "sigmoid") 2, 1, [1, 2]⟩
        ⟨[⟨1, 2, 1/2, true, 1⟩, ⟨1, 2, 1/3, true, 1⟩]⟩
        (Node.init 1 (.name "sigmoid") 1) (Node.init 2 (.name "sigmoid") 2) = true ∧
      (2 : Int) ∈ ([1, 2] : List Int) ∧
      ¬ ∃ gene ∈ ([⟨1, 2, 1/2, true, 1⟩, ⟨1, 2, 1/3, true, 1⟩] : List ConnectionGene),
          gene.innovation_nb = 2 := by
  refine ⟨by decide, by decide, ?_⟩
  decide

/-- C2, amended: when the genome's gene innovation numbers are pairwise
distinct (the invariant the registry maintains), a successful `matches` does
force identical membership in both directions: every stored innovation number
occurs among the genome's genes. -/
theorem matches_reverse_membership_of_nodup (h : ConnectionHistory) (g : Genome) (f t : Node)
    (hnd : (g.genes.map ConnectionGene.innovation_nb).Nodup)
    (hm : h.matches g f t = true) :
    ∀ i ∈ h.innovation_nbs, ∃ gene ∈ g.genes, gene.innovation_nb = i := by
  unfold ConnectionHistory.matches at hm
  split_ifs at hm with hl hid
  have hsub : ∀ x ∈ g.genes.map ConnectionGene.innovation_nb, x ∈ h.innovation_nbs := by
    intro x hx
    obtain ⟨gene, hg, rfl⟩ := List.mem_map.mp hx
    have := List.all_eq_true.mp hm gene hg
    simpa using this
  have hsubF : (g.genes.map ConnectionGene.innovation_nb).toFinset ⊆ h.innovation_nbs.toFinset := by
    intro x hx
    exact List.mem_toFinset.mpr (hsub x (List.mem_toFinset.mp hx))
  have hcard1 : (g.genes.map ConnectionGene.innovation_nb).toFinset.card =
      (g.genes.map ConnectionGene.innovation_nb).length :=
    List.toFinset_card_of_nodup hnd
  have hcard2 : h.innovation_nbs.toFinset.card ≤ h.innovation_nbs.length :=
    List.toFinset_card_le h.innovation_nbs
  have hlen : (g.genes.map ConnectionGene.innovation_nb).length = h.innovation_nbs.length := by
    simpa using hl
  have hEqF : (g.genes.map ConnectionGene.innovation_nb).toFinset = h.innovation_nbs.toFinset :=
    Finset.eq_of_subset_of_card_le hsubF (by omega)
  intro i hi
  have : i ∈ (g.genes.map ConnectionGene.innovation_nb).toFinset := by
    rw [hEqF]
    exact List.mem_toFinset.mpr hi
  obtain ⟨gene, hg, hgi⟩ := List.mem_map.mp (List.mem_toFinset.mp this)
  exact ⟨gene, hg, hgi⟩

/-- Witness for the amended C2 at a concrete one-gene genome. -/
theorem matches_reverse_membership_of_nodup_witness :
    (([⟨1, 2, 1/2, true, 5⟩] : List ConnectionGene).map ConnectionGene.innovation_nb).Nodup ∧
      ConnectionHistory.matches
        ⟨Node.init 1 (.name "sigmoid") 1, Node.init 2 (.name "sigmoid") 2, 5, [5]⟩
        ⟨[⟨1, 2, 1/2, true, 5⟩]⟩
        (Node.init 1 (.name "sigmoid") 1) (Node.init 2 (.name "sigmoid") 2) = true ∧
      ∀ i ∈ ([5] : List Int),
        ∃ gene ∈ ([⟨1, 2, 1/2, true, 5⟩] : List ConnectionGene), gene.innovation_nb = i :=
  ⟨by decide, by decide,
    matches_reverse_membership_of_nodup
      ⟨Node.init 1 (.name "sigmoid") 1, Node.init 2 (.name "sigmoid") 2, 5, [5]⟩
      ⟨[⟨1, 2, 1/2, true, 5⟩]⟩
      (Node.init 1 (.name "sigmoid") 1) (Node.init 2 (.name "sigmoid") 2)
      (by decide) (by decide)⟩

/-- C8: `Node.clone` copies id, activation function and layer, and does not
copy the outgoing connections. -/
theorem clone_copies_id_activation_layer (n : Node) :
    n.clone.id = n.id ∧ n.clone.activation_function = n.activation_function ∧
      n.clone.layer = n.layer ∧ n.clone.output_connections = [] :=
  ⟨rfl, rfl, rfl, rfl⟩

/-- C9: `Node.clone` resets input_sum and output_value to 0 whatever the
source node's current values are. -/
theorem clone_resets_sums (n : Node) :
    n.clone.input_sum = 0 ∧ n.clone.output_value = 0 :=
  ⟨rfl, rfl⟩

/-- C10: `Node.is_connected_to` is symmetric in its two node references. -/
theorem is_connected_to_symm (store : List Node) (a b : Nat) :
    Node.is_connected_to store a b = Node.is_connected_to store b a := by
  unfold Node.is_connected_to
  rcases lt_trichotomy (getNode store a).layer (getNode store b).layer with hlt | heq | hgt
  · have h1 : ¬ (getNode store b).layer = (getNode store a).layer := by omega
    have h2 : ¬ (getNode store b).layer < (getNode store a).layer := by omega
    have h3 : ¬ (getNode store a).layer = (getNode store b).layer := by omega
    simp only [h1, h2, h3, hlt, if_false, if_true]
  · simp only [heq, if_true]
  · have h1 : ¬ (getNode store a).layer = (getNode store b).layer := by omega
    have h2 : ¬ (getNode store a).layer < (getNode store b).layer := by omega
    have h3 : ¬ (getNode store b).layer = (getNode store a).layer := by omega
    simp only [h1, h2, h3, hgt, if_false, if_true]

/-- C5: `get_activation_function` maps each of the ten supported names to the
eponymous function, and every other argument — any unsupported string, and any
function object — to sigmoid, without raising. -/
theorem get_activation_function_total :
    (Node.get_activation_function (.name "step") = .step ∧
      Node.get_activation_function (.name "sigmoid") = .sigmoid ∧
      Node.get_activation_function (.name "tanh") = .tanh ∧
      Node.get_activation_function (.name "relu") = .relu ∧
      Node.get_activation_function (.name "leaky_relu") = .leaky_relu ∧
      Node.get_activation_function (.name "prelu") = .prelu ∧
      Node.get_activation_function (.name "elu") = .elu ∧
      Node.get_activation_function (.name "softmax") = .softmax ∧
      Node.get_activation_function (.name "linear") = .linear ∧
      Node.get_activation_function (.name "swish") = .swish) ∧
    (∀ s : String, s ∉ activations_functions →
      Node.get_activation_function (.name s) = .sigmoid) ∧
    (∀ f : ActivationFn, Node.get_activation_function (.func f) = .sigmoid) := by
  refine ⟨by decide, ?_, ?_⟩
  · intro s hs
    simp only [activations_functions, List.mem_cons, List.not_mem_nil, or_false] at hs
    push_neg at hs
    obtain ⟨h1, h2, h3, h4, h5, h6, h7, h8, h9, h10⟩ := hs
    simp [Node.get_activation_function, PyActivation.name.injEq,
      h1, h2, h3, h4, h5, h6, h7, h8, h9, h10]
  · intro f
    rfl

/-- Witness for C5 at the unsupported name "gaussian". -/
theorem get_activation_function_total_witness :
    "gaussian" ∉ activations_functions ∧
      Node.get_activation_function (.name "gaussian") = .sigmoid :=
  ⟨by decide, get_activation_function_total.2.1 "gaussian" (by decide)⟩

/-- C7: `is_connected_to` is false on equal layers; on distinct layers it is
true iff some connection gene (enabled or not) of the lower-layer node's
output_connections points at the higher-layer node's reference. -/
theorem is_connected_to_iff (store : List Node) (a b : Nat) :
    ((getNode store a).layer = (getNode store b).layer →
      Node.is_connected_to store a b = false) ∧
    ((getNode store a).layer < (getNode store b).layer →
      (Node.is_connected_to store a b = true ↔
        ∃ c ∈ (getNode store a).output_connections, c.to_node = b)) ∧
    ((getNode store b).layer < (getNode store a).layer →
      (Node.is_connected_to store a b = true ↔
        ∃ c ∈ (getNode store b).output_connections, c.to_node = a)) := by
  refine ⟨?_, ?_, ?_⟩
  · intro hEq
    simp only [Node.is_connected_to]
    rw [if_pos hEq.symm]
  · intro hlt
    simp only [Node.is_connected_to]
    rw [if_neg (by omega), if_neg (by omega)]
    simp [List.any_eq_true]
  · intro hlt
    simp only [Node.is_connected_to]
    rw [if_neg (by omega), if_pos hlt]
    simp [List.any_eq_true]

/-- Witness for C7 on a two-node heap with one cross-layer connection. -/
theorem is_connected_to_iff_witness :
    (getNode [⟨0, 0, 0, [⟨0, 1, 1, true, 1⟩], 0, .name "sigmoid"⟩,
              ⟨1, 0, 0, [], 1, .name "sigmoid"⟩] 0).layer <
      (getNode [⟨0, 0, 0, [⟨0, 1, 1, true, 1⟩], 0, .name "sigmoid"⟩,
                ⟨1, 0, 0, [], 1, .name "sigmoid"⟩] 1).layer ∧
    (Node.is_connected_to [⟨0, 0, 0, [⟨0, 1, 1, true, 1⟩], 0, .name "sigmoid"⟩,
        ⟨1, 0, 0, [], 1, .name "sigmoid"⟩] 0 1 = true ↔
      ∃ c ∈ (getNode [⟨0, 0, 0, [⟨0, 1, 1, true, 1⟩], 0, .name "sigmoid"⟩,
          ⟨1, 0, 0, [], 1, .name "sigmoid"⟩] 0).output_connections, c.to_node = 1) :=
  ⟨by decide,
    (is_connected_to_iff [⟨0, 0, 0, [⟨0, 1, 1, true, 1⟩], 0, .name "sigmoid"⟩,
      ⟨1, 0, 0, [], 1, .name "sigmoid"⟩] 0 1).2.1 (by decide)⟩

/-- The output value produced by `Node.mutate` on a bias node: replacement,
else perturbation with the two clamping checks in source order, else
unchanged; the activation branch never touches `output_value`. -/
theorem mutate_bias_output_value (config : NeatConfig) (rnd : MutateRand) (n : Node) :
    (Node.mutate config rnd true n).output_value =
      if rnd.r_bias_replace < config.bias_replace_rate then rnd.u_bias
      else if rnd.r_bias_mutate < config.bias_mutate_rate then
        (if (if n.output_value + rnd.g_bias / 50 > config.bias_max_value then
              config.bias_max_value
            else n.output_value + rnd.g_bias / 50) < config.bias_min_value then
          config.bias_min_value
        else (if n.output_value + rnd.g_bias / 50 > config.bias_max_value then
              config.bias_max_value
            else n.output_value + rnd.g_bias / 50))
      else n.output_value := by
  simp only [Node.mutate]
  split_ifs <;> rfl

/-- C6: on a bias node, one `mutate` call either replaces `output_value`
(ignoring the perturbation draw entirely), or — only when the replace check
failed — perturbs and clamps it, never both; and in either firing branch the
resulting value lies in `[bias_min_value, bias_max_value]`. -/
theorem mutate_bias_exclusive_and_bounded (config : NeatConfig) (rnd : MutateRand) (n : Node)
    (hb : config.bias_min_value ≤ config.bias_max_value)
    (hu1 : config.bias_min_value ≤ rnd.u_bias) (hu2 : rnd.u_bias ≤ config.bias_max_value) :
    (rnd.r_bias_replace < config.bias_replace_rate →
      (Node.mutate config rnd true n).output_value = rnd.u_bias ∧
      config.bias_min_value ≤ (Node.mutate config rnd true n).output_value ∧
      (Node.mutate config rnd true n).output_value ≤ config.bias_max_value) ∧
    (¬ rnd.r_bias_replace < config.bias_replace_rate →
      rnd.r_bias_mutate < config.bias_mutate_rate →
      config.bias_min_value ≤ (Node.mutate config rnd true n).output_value ∧
      (Node.mutate config rnd true n).output_value ≤ config.bias_max_value) ∧
    (¬ rnd.r_bias_replace < config.bias_replace_rate →
      ¬ rnd.r_bias_mutate < config.bias_mutate_rate →
      (Node.mutate config rnd true n).output_value = n.output_value) := by
  refine ⟨?_, ?_, ?_⟩
  · intro h1
    rw [mutate_bias_output_value, if_pos h1]
    exact ⟨rfl, hu1, hu2⟩
  · intro h1 h2
    rw [mutate_bias_output_value, if_neg h1, if_pos h2]
    constructor <;> split_ifs <;> linarith
  · intro h1 h2
    rw [mutate_bias_output_value, if_neg h1, if_neg h2]

/-- Witness for C6: a replace-branch firing stays within bounds. -/
theorem mutate_bias_exclusive_and_bounded_witness :
    ((-2 : Rat) ≤ 2 ∧ (-2 : Rat) ≤ 1 ∧ (1 : Rat) ≤ 2) ∧
    (((⟨0, 1, 0, 0, 1, 0⟩ : MutateRand).r_bias_replace <
        (⟨1, 1, -2, 2, 0, 1, 0⟩ : NeatConfig).bias_replace_rate →
      (Node.mutate ⟨1, 1, -2, 2, 0, 1, 0⟩ ⟨0, 1, 0, 0, 1, 0⟩ true
          (Node.init 3 (.name "sigmoid") 0)).output_value = (⟨0, 1, 0, 0, 1, 0⟩ : MutateRand).u_bias ∧
      (⟨1, 1, -2, 2, 0, 1, 0⟩ : NeatConfig).bias_min_value ≤
        (Node.mutate ⟨1, 1, -2, 2, 0, 1, 0⟩ ⟨0, 1, 0, 0, 1, 0⟩ true
          (Node.init 3 (.name "sigmoid") 0)).output_value ∧
      (Node.mutate ⟨1, 1, -2, 2, 0, 1, 0⟩ ⟨0, 1, 0, 0, 1, 0⟩ true
          (Node.init 3 (.name "sigmoid") 0)).output_value ≤
        (⟨1, 1, -2, 2, 0, 1, 0⟩ : NeatConfig).bias_max_value) ∧
    (¬ (⟨0, 1, 0, 0, 1, 0⟩ : MutateRand).r_bias_replace <
        (⟨1, 1, -2, 2, 0, 1, 0⟩ : NeatConfig).bias_replace_rate →
      (⟨0, 1, 0, 0, 1, 0⟩ : MutateRand).r_bias_mutate <
        (⟨1, 1, -2, 2, 0, 1, 0⟩ : NeatConfig).bias_mutate_rate →
      (⟨1, 1, -2, 2, 0, 1, 0⟩ : NeatConfig).bias_min_value ≤
        (Node.mutate ⟨1, 1, -2, 2, 0, 1, 0⟩ ⟨0, 1, 0, 0, 1, 0⟩ true
          (Node.init 3 (.name "sigmoid") 0)).output_value ∧
      (Node.mutate ⟨1, 1, -2, 2, 0, 1, 0⟩ ⟨0, 1, 0, 0, 1, 0⟩ true
          (Node.init 3 (.name "sigmoid") 0)).output_value ≤
        (⟨1, 1, -2, 2, 0, 1, 0⟩ : NeatConfig).bias_max_value) ∧
    (¬ (⟨0, 1, 0, 0, 1, 0⟩ : MutateRand).r_bias_replace <
        (⟨1, 1, -2, 2, 0, 1, 0⟩ : NeatConfig).bias_replace_rate →
      ¬ (⟨0, 1, 0, 0, 1, 0⟩ : MutateRand).r_bias_mutate <
        (⟨1, 1, -2, 2, 0, 1, 0⟩ : NeatConfig).bias_mutate_rate →
      (Node.mutate ⟨1, 1, -2, 2, 0, 1, 0⟩ ⟨0, 1, 0, 0, 1, 0⟩ true
          (Node.init 3 (.name "sigmoid") 0)).output_value =
        (Node.init 3 (.name "sigmoid") 0).output_value)) :=
  ⟨⟨by norm_num, by norm_num, by norm_num⟩,
    mutate_bias_exclusive_and_bounded ⟨1, 1, -2, 2, 0, 1, 0⟩ ⟨0, 1, 0, 0, 1, 0⟩
      (Node.init 3 (.name "sigmoid") 0) (by norm_num) (by norm_num) (by norm_num)⟩

/-- Reading a heap slot just written (in bounds) yields the written node. -/
theorem getNode_setNode_same (st : List Node) (r : Nat) (n : Node) (h : r < st.length) :
    getNode (setNode st r n) r = n := by
  simp [getNode, setNode, List.getD_eq_getElem?_getD, List.getElem?_set_self, h]

/-- Writing one heap slot leaves every other slot unchanged. -/
theorem getNode_setNode_other (st : List Node) (r k : Nat) (n : Node) (h : k ≠ r) :
    getNode (setNode st r n) k = getNode st k := by
  simp [getNode, setNode, List.getD_eq_getElem?_getD, List.getElem?_set_ne (Ne.symm h)]

/-- Characterisation of reads after a write, covering out-of-bounds writes. -/
theorem getNode_setNode (st : List Node) (r k : Nat) (n : Node) :
    getNode (setNode st r n) k = if k = r ∧ r < st.length then n else getNode st k := by
  split_ifs with h
  · obtain ⟨rfl, hlt⟩ := h
    exact getNode_setNode_same st k n hlt
  · push_neg at h
    by_cases hk : k = r
    · subst hk
      have hge : st.length ≤ k := h rfl
      simp [getNode, setNode, List.set_eq_of_length_le hge]
    · exact getNode_setNode_other st r k n hk

/-- Writing a heap slot preserves the heap size. -/
theorem setNode_length (st : List Node) (r : Nat) (n : Node) :
    (setNode st r n).length = st.length := by
  simp [setNode]

/-- One loop iteration of `engage` preserves the heap size. -/
theorem engageStep_length (ref : Nat) (st : List Node) (c : ConnectionGene) :
    (engageStep ref st c).length = st.length := by
  simp only [engageStep]
  split_ifs
  · exact setNode_length st c.to_node _
  · rfl

/-- One loop iteration of `engage` only ever changes an `input_sum`: every
other field of every node is preserved. -/
theorem engageStep_fields (ref : Nat) (st : List Node) (c : ConnectionGene) (j : Nat) :
    (getNode (engageStep ref st c) j).id = (getNode st j).id ∧
    (getNode (engageStep ref st c) j).output_value = (getNode st j).output_value ∧
    (getNode (engageStep ref st c) j).layer = (getNode st j).layer ∧
    (getNode (engageStep ref st c) j).output_connections = (getNode st j).output_connections ∧
    (getNode (engageStep ref st c) j).activation_function = (getNode st j).activation_function := by
  simp only [engageStep]
  split_ifs
  · rw [getNode_setNode]
    split_ifs with h
    · obtain ⟨rfl, -⟩ := h
      exact ⟨rfl, rfl, rfl, rfl, rfl⟩
    · exact ⟨rfl, rfl, rfl, rfl, rfl⟩
  · exact ⟨rfl, rfl, rfl, rfl, rfl⟩

/-- One loop iteration of `engage` leaves every node other than the
connection's target unchanged. -/
theorem engageStep_other (ref : Nat) (st : List Node) (c : ConnectionGene) (j : Nat)
    (h : j ≠ c.to_node) : getNode (engageStep ref st c) j = getNode st j := by
  simp only [engageStep]
  split_ifs
  · rw [getNode_setNode, if_neg (by tauto)]
  · rfl

/-- One loop iteration of `engage` on an enabled connection adds
`weight * output_value` of the engaging node to the target's `input_sum`. -/
theorem engageStep_target (ref : Nat) (st : List Node) (c : ConnectionGene)
    (hv : c.to_node < st.length) (he : c.enabled = true) :
    (getNode (engageStep ref st c) c.to_node).input_sum =
      (getNode st c.to_node).input_sum + c.weight * (getNode st ref).output_value := by
  simp only [engageStep, he, if_true]
  rw [getNode_setNode, if_pos ⟨rfl, hv⟩]

/-- The whole connection loop preserves the heap size. -/
theorem foldl_engageStep_length (ref : Nat) :
    ∀ (cs : List ConnectionGene) (st : List Node),
      (cs.foldl (engageStep ref) st).length = st.length
  | [], _ => rfl
  | c :: cs, st => by
    rw [List.foldl_cons, foldl_engageStep_length ref cs (engageStep ref st c),
      engageStep_length]

/-- The whole connection loop only ever changes `input_sum` fields. -/
theorem foldl_engageStep_fields (ref : Nat) :
    ∀ (cs : List ConnectionGene) (st : List Node) (j : Nat),
      (getNode (cs.foldl (engageStep ref) st) j).id = (getNode st j).id ∧
      (getNode (cs.foldl (engageStep ref) st) j).output_value =
        (getNode st j).output_value ∧
      (getNode (cs.foldl (engageStep ref) st) j).layer = (getNode st j).layer ∧
      (getNode (cs.foldl (engageStep ref) st) j).output_connections =
        (getNode st j).output_connections ∧
      (getNode (cs.foldl (engageStep ref) st) j).activation_function =
        (getNode st j).activation_function
  | [], _, _ => ⟨rfl, rfl, rfl, rfl, rfl⟩
  | c :: cs, st, j => by
    rw [List.foldl_cons]
    have ih := foldl_engageStep_fields ref cs (engageStep ref st c) j
    have hs := engageStep_fields ref st c j
    exact ⟨ih.1.trans hs.1, ih.2.1.trans hs.2.1, ih.2.2.1.trans hs.2.2.1,
      ih.2.2.2.1.trans hs.2.2.2.1, ih.2.2.2.2.trans hs.2.2.2.2⟩

/-- A node targeted by no connection of the loop is left fully unchanged. -/
theorem foldl_engageStep_untouched (ref : Nat) :
    ∀ (cs : List ConnectionGene) (st : List Node) (j : Nat),
      j ∉ cs.map ConnectionGene.to_node →
      getNode (cs.foldl (engageStep ref) st) j = getNode st j
  | [], _, _, _ => rfl
  | c :: cs, st, j, h => by
    rw [List.foldl_cons]
    simp only [List.map_cons, List.mem_cons] at h
    push_neg at h
    rw [foldl_engageStep_untouched ref cs _ j h.2, engageStep_other ref st c j h.1]

/-- For pairwise-distinct targets, the loop adds exactly one contribution
`weight * output_value` to each enabled connection's target. -/
theorem foldl_engageStep_enabled_target (ref : Nat) :
    ∀ (cs : List ConnectionGene) (st : List Node),
      (∀ c ∈ cs, c.to_node < st.length) →
      (cs.map ConnectionGene.to_node).Nodup →
      ∀ c ∈ cs, c.enabled = true →
        (getNode (cs.foldl (engageStep ref) st) c.to_node).input_sum =
          (getNode st c.to_node).input_sum + c.weight * (getNode st ref).output_value
  | [], _, _, _, c, hc, _ => absurd hc (List.not_mem_nil c)
  | c0 :: cs, st, hv, hnd, c, hc, he => by
    rw [List.foldl_cons]
    simp only [List.map_cons, List.nodup_cons] at hnd
    rcases List.mem_cons.mp hc with rfl | hmem
    · rw [foldl_engageStep_untouched ref cs _ c.to_node hnd.1]
      exact engageStep_target ref st c (hv c (List.mem_cons_self c cs)) he
    · have hv2 : ∀ d ∈ cs, d.to_node < (engageStep ref st c0).length := by
        intro d hd
        rw [engageStep_length]
        exact hv d (List.mem_cons_of_mem c0 hd)
      have ih := foldl_engageStep_enabled_target ref cs (engageStep ref st c0)
        hv2 hnd.2 c hmem he
      have hne : c.to_node ≠ c0.to_node := by
        intro hEq
        exact hnd.1 (hEq ▸ List.mem_map.mpr ⟨c, hmem, rfl⟩)
      rw [ih, engageStep_other ref st c0 c.to_node hne,
        (engageStep_fields ref st c0 ref).2.1]

/-- For pairwise-distinct targets, the target of a disabled connection keeps
its `input_sum` through the whole loop. -/
theorem foldl_engageStep_disabled_target (ref : Nat) :
    ∀ (cs : List ConnectionGene) (st : List Node),
      (cs.map ConnectionGene.to_node).Nodup →
      ∀ c ∈ cs, c.enabled = false →
        (getNode (cs.foldl (engageStep ref) st) c.to_node).input_sum =
          (getNode st c.to_node).input_sum
  | [], _, _, c, hc, _ => absurd hc (List.not_mem_nil c)
  | c0 :: cs, st, hnd, c, hc, he => by
    rw [List.foldl_cons]
    simp only [List.map_cons, List.nodup_cons] at hnd
    rcases List.mem_cons.mp hc with rfl | hmem
    · rw [foldl_engageStep_untouched ref cs _ c.to_node hnd.1]
      have : engageStep ref st c = st := by
        simp [engageStep, he]
      rw [this]
    · have ih := foldl_engageStep_disabled_target ref cs (engageStep ref st c0)
        hnd.2 c hmem he
      have hne : c.to_node ≠ c0.to_node := by
        intro hEq
        exact hnd.1 (hEq ▸ List.mem_map.mpr ⟨c, hmem, rfl⟩)
      rw [ih, engageStep_other ref st c0 c.to_node hne]

/-- C3: `engage` leaves `output_value` unchanged on a layer-0 node and sets it
to `activation(input_sum)` otherwise; every enabled outgoing connection adds
`weight * output_value` to its target's `input_sum`; targets of disabled
connections, and the node's own `input_sum`, `id`, `layer` and connection
list, are unchanged.  The hypotheses state the genome invariants on the
connection lists: in-bounds references, no self-loops, and no two connections
to the same ordered target. -/
theorem engage_frame (I : ActivationFn → Rat → Rat) (store : List Node) (ref : Nat)
    (href : ref < store.length)
    (hv : ∀ c ∈ (getNode store ref).output_connections, c.to_node < store.length)
    (hself : ∀ c ∈ (getNode store ref).output_connections, c.to_node ≠ ref)
    (hnd : ((getNode store ref).output_connections.map ConnectionGene.to_node).Nodup) :
    ((getNode store ref).layer = 0 →
      (getNode (Node.engage I store ref) ref).output_value =
        (getNode store ref).output_value) ∧
    ((getNode store ref).layer ≠ 0 →
      (getNode (Node.engage I store ref) ref).output_value =
        I (Node.get_activation_function (getNode store ref).activation_function)
          (getNode store ref).input_sum) ∧
    (getNode (Node.engage I store ref) ref).input_sum = (getNode store ref).input_sum ∧
    (getNode (Node.engage I store ref) ref).id = (getNode store ref).id ∧
    (getNode (Node.engage I store ref) ref).layer = (getNode store ref).layer ∧
    (getNode (Node.engage I store ref) ref).output_connections =
      (getNode store ref).output_connections ∧
    (∀ c ∈ (getNode store ref).output_connections, c.enabled = true →
      (getNode (Node.engage I store ref) c.to_node).input_sum =
        (getNode store c.to_node).input_sum +
          c.weight * (getNode (Node.engage I store ref) ref).output_value) ∧
    (∀ c ∈ (getNode store ref).output_connections, c.enabled = false →
      (getNode (Node.engage I store ref) c.to_node).input_sum =
        (getNode store c.to_node).input_sum) := by
  have hrefmem : ref ∉ (getNode store ref).output_connections.map ConnectionGene.to_node := by
    intro hmem
    obtain ⟨c, hc, hEq⟩ := List.mem_map.mp hmem
    exact hself c hc hEq
  by_cases hL : (getNode store ref).layer = 0
  · have hdef : Node.engage I store ref =
        (getNode store ref).output_connections.foldl (engageStep ref) store := by
      simp only [Node.engage]
      rw [if_neg (by simp [hL])]
    have hrefEq : getNode (Node.engage I store ref) ref = getNode store ref := by
      rw [hdef]
      exact foldl_engageStep_untouched ref _ store ref hrefmem
    refine ⟨fun _ => by rw [hrefEq], fun hL2 => absurd hL hL2, by rw [hrefEq],
      by rw [hrefEq], by rw [hrefEq], by rw [hrefEq], ?_, ?_⟩
    · intro c hc he
      rw [hrefEq, hdef]
      exact foldl_engageStep_enabled_target ref _ store hv hnd c hc he
    · intro c hc he
      rw [hdef]
      exact foldl_engageStep_disabled_target ref _ store hnd c hc he
  · have hdef : Node.engage I store ref =
        (getNode store ref).output_connections.foldl (engageStep ref)
          (setNode store ref
            { getNode store ref with
                output_value := I (Node.get_activation_function
                  (getNode store ref).activation_function) (getNode store ref).input_sum }) := by
      simp only [Node.engage]
      rw [if_pos hL]
    set nOut : Node := { getNode store ref with
        output_value := I (Node.get_activation_function
          (getNode store ref).activation_function) (getNode store ref).input_sum } with hnOut
    set store1 : List Node := setNode store ref nOut with hstore1
    have hlen1 : store1.length = store.length := setNode_length store ref nOut
    have h1ref : getNode store1 ref = nOut := getNode_setNode_same store ref nOut href
    have h1other : ∀ j, j ≠ ref → getNode store1 j = getNode store j := fun j hj =>
      getNode_setNode_other store ref j nOut hj
    have hrefEq : getNode (Node.engage I store ref) ref = nOut := by
      rw [hdef, foldl_engageStep_untouched ref _ store1 ref hrefmem, h1ref]
    refine ⟨fun hL2 => absurd hL2 hL, fun _ => by rw [hrefEq], by rw [hrefEq],
      by rw [hrefEq], by rw [hrefEq], by rw [hrefEq], ?_, ?_⟩
    · intro c hc he
      have hv1 : ∀ d ∈ (getNode store ref).output_connections, d.to_node < store1.length := by
        rw [hlen1]
        exact hv
      rw [hrefEq, hdef,
        foldl_engageStep_enabled_target ref _ store1 hv1 hnd c hc he,
        h1other c.to_node (hself c hc), h1ref]
    · intro c hc he
      rw [hdef, foldl_engageStep_disabled_target ref _ store1 hnd c hc he,
        h1other c.to_node (hself c hc)]

/-- A two-node heap used to instantiate the `engage` theorem: node 0 on layer
1 with one enabled connection of weight 3 to node 1 on layer 2. -/
def engageDemo : List Node :=
  [⟨0, 2, 0, [⟨0, 1, 3, true, 1⟩], 1, .name "linear"⟩,
   ⟨1, 10, 5, [], 2, .name "sigmoid"⟩]

/-- A concrete interpretation of the activation tags for the witness. -/
def engageDemoI : ActivationFn → Rat → Rat := fun _ x => x + 1

/-- Witness for C3 on the two-node heap. -/
theorem engage_frame_witness :
    (0 < engageDemo.length ∧
      (∀ c ∈ (getNode engageDemo 0).output_connections, c.to_node < engageDemo.length) ∧
      (∀ c ∈ (getNode engageDemo 0).output_connections, c.to_node ≠ 0) ∧
      ((getNode engageDemo 0).output_connections.map ConnectionGene.to_node).Nodup) ∧
    (((getNode engageDemo 0).layer = 0 →
      (getNode (Node.engage engageDemoI engageDemo 0) 0).output_value =
        (getNode engageDemo 0).output_value) ∧
    ((getNode engageDemo 0).layer ≠ 0 →
      (getNode (Node.engage engageDemoI engageDemo 0) 0).output_value =
        engageDemoI (Node.get_activation_function (getNode engageDemo 0).activation_function)
          (getNode engageDemo 0).input_sum) ∧
    (getNode (Node.engage engageDemoI engageDemo 0) 0).input_sum =
      (getNode engageDemo 0).input_sum ∧
    (getNode (Node.engage engageDemoI engageDemo 0) 0).id = (getNode engageDemo 0).id ∧
    (getNode (Node.engage engageDemoI engageDemo 0) 0).layer = (getNode engageDemo 0).layer ∧
    (getNode (Node.engage engageDemoI engageDemo 0) 0).output_connections =
      (getNode engageDemo 0).output_connections ∧
    (∀ c ∈ (getNode engageDemo 0).output_connections, c.enabled = true →
      (getNode (Node.engage engageDemoI engageDemo 0) c.to_node).input_sum =
        (getNode engageDemo c.to_node).input_sum +
          c.weight * (getNode (Node.engage engageDemoI engageDemo 0) 0).output_value) ∧
    (∀ c ∈ (getNode engageDemo 0).output_connections, c.enabled = false →
      (getNode (Node.engage engageDemoI engageDemo 0) c.to_node).input_sum =
        (getNode engageDemo c.to_node).input_sum)) :=
  ⟨⟨by decide, by decide, by decide, by decide⟩,
    engage_frame engageDemoI engageDemo 0 (by decide) (by decide) (by decide) (by decide)⟩

/-- C4, code-bug demonstration: firing the activation-mutation branch with the
name "relu" stores the function object `relu` in `activation_function`; a
subsequent `engage` passes that function object back through
`get_activation_function`, where it matches no name and falls through to
sigmoid, so the node computes `sigmoid(input_sum)` — under any interpretation
of the function objects — instead of `relu(input_sum)`. -/
theorem mutate_activation_then_engage_uses_sigmoid :
    (Node.mutate ⟨0, 0, 0, 0, 0, 0, 1⟩ ⟨1, 0, 1, 0, 0, 3⟩ false
        (⟨1, 5, 0, [], 1, .name "tanh"⟩ : Node)).activation_function = .func .relu ∧
    (∀ I : ActivationFn → Rat → Rat,
      (getNode (Node.engage I
          [Node.mutate ⟨0, 0, 0, 0, 0, 0, 1⟩ ⟨1, 0, 1, 0, 0, 3⟩ false
            (⟨1, 5, 0, [], 1, .name "tanh"⟩ : Node)] 0) 0).output_value =
        I .sigmoid 5) ∧
    (getNode (Node.engage (fun f x => if f = ActivationFn.relu then x else 0)
        [Node.mutate ⟨0, 0, 0, 0, 0, 0, 1⟩ ⟨1, 0, 1, 0, 0, 3⟩ false
          (⟨1, 5, 0, [], 1, .name "tanh"⟩ : Node)] 0) 0).output_value ≠
      (fun f x => if f = ActivationFn.relu then x else 0) ActivationFn.relu 5 := by
  refine ⟨by decide, fun I => ?_, by decide⟩
  rfl
